import Mathlib

/-!
Shallow embedding of the llm-monitor web client (`src/ui`): the registry
snapshot view, the pull and chat streaming consumers, model deletion, the
bulk alias-creation flow, the tick-driven refresh scheduler and the VRAM /
expiry display helpers of `Llmm.vue` and `ChatView.vue`.

JavaScript values flowing through the client are modelled by the `Json`
type below; `JSON.parse` is modelled by an executable fuel-based parser
(`jsonParse`).  Numbers are modelled as integers: every number on the wire
in this client (byte counts, progress values, counts of results) is
integral, and fractional or exponent number literals, which never occur in
these streams, are rejected by the model parser.
-/

namespace LlmMonitor

/-- JSON values (also standing in for the JavaScript values the client
manipulates; `undefined` is modelled as `Option.none` at use sites). -/
inductive Json where
  | null
  | bool (b : Bool)
  | num (n : Int)
  | str (s : String)
  | arr (elems : List Json)
  | obj (fields : List (String × Json))

/-- JavaScript truthiness of a value: `null`, `false`, `0` and `""` are
falsy; every array and object is truthy. -/
def Json.truthy : Json → Bool
  | .null => false
  | .bool b => b
  | .num n => n != 0
  | .str s => s != ""
  | .arr _ => true
  | .obj _ => true

/-- Property access `o.k`: defined only on objects (first binding of the
key; the client's traffic never carries duplicate keys).  A missing field
(JavaScript `undefined`) is `none`. -/
def Json.getField : Json → String → Option Json
  | .obj fields, k => fields.lookup k
  | _, _ => none

/-- Indexing `v[0]` as used in `data.choices[0]`: the head of an array, the
first character of a non-empty string, or the property `"0"` of an object. -/
def Json.index0 : Json → Option Json
  | .arr (x :: _) => some x
  | .arr [] => none
  | .str s => if s = "" then none else some (.str (String.mk (s.data.take 1)))
  | .obj fields => fields.lookup "0"
  | _ => none

/-! ### The JavaScript string operations the stream loops use

`trim`, `split('\n')`, `startsWith` and prefix removal are modelled
directly over the character list of the string. -/

/-- `String.prototype.trim`: strip whitespace from both ends. -/
def jsTrim (s : String) : String :=
  String.mk (((s.data.dropWhile Char.isWhitespace).reverse.dropWhile
    Char.isWhitespace).reverse)

/-- Split a character list at every newline. -/
def splitNl : List Char → List (List Char)
  | [] => [[]]
  | c :: cs =>
    if c = '\n' then [] :: splitNl cs
    else
      match splitNl cs with
      | p :: ps => (c :: p) :: ps
      | [] => [[c]]

/-- `chunk.split('\n')`. -/
def jsSplitNewline (s : String) : List String :=
  (splitNl s.data).map String.mk

/-- `String.prototype.startsWith`. -/
def jsStartsWith (s p : String) : Bool :=
  p.data.isPrefixOf s.data

/-- Drop the first `n` characters of a string. -/
def jsDrop (s : String) (n : Nat) : String :=
  String.mk (s.data.drop n)

/-- Truthiness of a field access `o.k` (`undefined` is falsy). -/
def fieldTruthy (j : Json) (k : String) : Bool :=
  match j.getField k with
  | some v => v.truthy
  | none => false

/-- The strict comparison `data.status === 'success'` used by the pull and
delete handlers (a non-string value never strictly equals a string). -/
def statusIsSuccess (j : Json) : Bool :=
  match j.getField "status" with
  | some (.str s) => s == "success"
  | _ => false

/-! ### A model of `JSON.parse`

An executable recursive-descent parser over the characters of the input,
with a fuel argument bounding the recursion depth.  It accepts exactly the
JSON the client's streams carry; the two deliberate restrictions relative
to a full `JSON.parse` are noted above (`Json` numbers are integers) —
neither is exercised by any value these endpoints produce. -/

/-- JSON whitespace. -/
def isJsonWs (c : Char) : Bool :=
  c = ' ' || c = '\t' || c = '\n' || c = '\r'

/-- Drop leading JSON whitespace. -/
def skipWs : List Char → List Char
  | c :: cs => if isJsonWs c then skipWs cs else c :: cs
  | [] => []

/-- Value of a hexadecimal digit. -/
def hexVal (c : Char) : Option Nat :=
  if '0' ≤ c ∧ c ≤ '9' then some (c.toNat - '0'.toNat)
  else if 'a' ≤ c ∧ c ≤ 'f' then some (c.toNat - 'a'.toNat + 10)
  else if 'A' ≤ c ∧ c ≤ 'F' then some (c.toNat - 'A'.toNat + 10)
  else none

/-- The opening brace character, `'\x7b'`. -/
def lbrace : Char := Char.ofNat 123

/-- The closing brace character, `'\x7d'`. -/
def rbrace : Char := Char.ofNat 125

/-- Parse the body of a JSON string literal (the opening quote already
consumed), returning the decoded characters and the rest of the input.
Handles the escape sequences of the JSON grammar; an unescaped control
character or an unterminated literal is a parse error. -/
def parseStringBody : List Char → Option (List Char × List Char)
  | [] => none
  | '"' :: rest => some ([], rest)
  | '\\' :: 'u' :: h1 :: h2 :: h3 :: h4 :: rest => do
    let a ← hexVal h1
    let b ← hexVal h2
    let c ← hexVal h3
    let d ← hexVal h4
    let (s, r) ← parseStringBody rest
    pure (Char.ofNat (((a * 16 + b) * 16 + c) * 16 + d) :: s, r)
  | '\\' :: e :: rest => do
    let c ←
      if e = '"' then some '"'
      else if e = '\\' then some '\\'
      else if e = '/' then some '/'
      else if e = 'n' then some '\n'
      else if e = 't' then some '\t'
      else if e = 'r' then some '\r'
      else if e = 'b' then some (Char.ofNat 8)
      else if e = 'f' then some (Char.ofNat 12)
      else none
    let (s, r) ← parseStringBody rest
    pure (c :: s, r)
  | c :: rest =>
    if c.toNat < 32 then none
    else do
      let (s, r) ← parseStringBody rest
      pure (c :: s, r)

/-- Greedily consume decimal digits, accumulating their value. -/
def takeDigits (acc : Nat) : List Char → Nat × List Char
  | c :: cs => if c.isDigit then takeDigits (acc * 10 + (c.toNat - 48)) cs else (acc, c :: cs)
  | [] => (acc, [])

/-- Parse an integer JSON number literal (optional minus sign, at least one
digit).  A following `.`, `e` or `E` (a fractional or exponent literal,
which these streams never carry) is a parse error in the model. -/
def parseIntNumber (cs : List Char) : Option (Int × List Char) :=
  match cs with
  | '-' :: c :: rest =>
    if c.isDigit then
      let (n, r) := takeDigits (c.toNat - 48) rest
      match r with
      | d :: _ => if d = '.' || d = 'e' || d = 'E' then none else some (-(n : Int), r)
      | [] => some (-(n : Int), r)
    else none
  | c :: rest =>
    if c.isDigit then
      let (n, r) := takeDigits (c.toNat - 48) rest
      match r with
      | d :: _ => if d = '.' || d = 'e' || d = 'E' then none else some ((n : Int), r)
      | [] => some ((n : Int), r)
    else none
  | [] => none

mutual

/-- Parse one JSON value (leading whitespace allowed). -/
def parseValue : Nat → List Char → Option (Json × List Char)
  | 0, _ => none
  | fuel + 1, cs =>
    match skipWs cs with
    | [] => none
    | c :: rest =>
      if c = '"' then
        match parseStringBody rest with
        | some (s, r) => some (.str (String.mk s), r)
        | none => none
      else if c = 't' then
        match rest with
        | 'r' :: 'u' :: 'e' :: r => some (.bool true, r)
        | _ => none
      else if c = 'f' then
        match rest with
        | 'a' :: 'l' :: 's' :: 'e' :: r => some (.bool false, r)
        | _ => none
      else if c = 'n' then
        match rest with
        | 'u' :: 'l' :: 'l' :: r => some (.null, r)
        | _ => none
      else if c = '[' then
        match skipWs rest with
        | ']' :: r => some (.arr [], r)
        | r => parseArrayItems fuel r
      else if c = lbrace then
        match skipWs rest with
        | d :: r => if d = rbrace then some (.obj [], r) else parseObjMembers fuel (d :: r)
        | [] => none
      else
        match parseIntNumber (c :: rest) with
        | some (n, r) => some (.num n, r)
        | none => none

/-- Parse the elements of a non-empty JSON array, up to and including the
closing bracket. -/
def parseArrayItems : Nat → List Char → Option (Json × List Char)
  | 0, _ => none
  | fuel + 1, cs => do
    let (v, r) ← parseValue fuel cs
    match skipWs r with
    | ',' :: r2 => do
      let (rest, r3) ← parseArrayItems fuel r2
      match rest with
      | .arr vs => pure (.arr (v :: vs), r3)
      | _ => none
    | ']' :: r2 => pure (.arr [v], r2)
    | _ => none

/-- Parse the members of a non-empty JSON object, up to and including the
closing brace. -/
def parseObjMembers : Nat → List Char → Option (Json × List Char)
  | 0, _ => none
  | fuel + 1, cs =>
    match skipWs cs with
    | '"' :: r => do
      let (k, r1) ← parseStringBody r
      match skipWs r1 with
      | ':' :: r2 => do
        let (v, r3) ← parseValue fuel r2
        match skipWs r3 with
        | ',' :: r4 => do
          let (rest, r5) ← parseObjMembers fuel r4
          match rest with
          | .obj kvs => pure (.obj ((String.mk k, v) :: kvs), r5)
          | _ => none
        | d :: r4 =>
          if d = rbrace then pure (.obj [(String.mk k, v)], r4) else none
        | [] => none
      | _ => none
    | _ => none

end

/-- `JSON.parse`: parse a complete JSON document (trailing whitespace
allowed; anything else after the value is a parse error). -/
def jsonParse (s : String) : Option Json :=
  match parseValue (2 * s.length + 4) s.data with
  | some (v, rest) => if (skipWs rest).isEmpty then some v else none
  | none => none

/-! ### HTTP requests issued by the client -/

/-- An HTTP request as assembled by the client (axios or `fetch`); only the
parts the claims are about: method, path below the base URL, JSON body. -/
structure HttpRequest where
  method : String
  path : String
  body : Json

/-! ### Chat (`sendMessage` in `Llmm.vue` and `ChatView.vue`; identical
stream-consumption logic in both components) -/

/-- One entry of `chatHistory`. -/
structure ChatMessage where
  role : String
  content : String
deriving DecidableEq

/-- Serialization of a chat message inside the request body. -/
def ChatMessage.toJson (m : ChatMessage) : Json :=
  .obj [("role", .str m.role), ("content", .str m.content)]

/-- `sendMessage`, request part: on blank input (`!this.chatInput.trim()`)
the handler returns without issuing a request; otherwise the user message
is appended to the history and one POST is
issued whose JSON body is built as
`\x7b messages: chatHistory, stream: true, model: selectedModel \x7d`. -/
def sendMessageRequest (label : String) (history : List ChatMessage)
    (input model : String) : Option HttpRequest :=
  if jsTrim input = "" then none
  else
    some
      { method := "POST"
        path := "/llmm/" ++ label ++ "/chat"
        body := .obj
          [("messages", .arr ((history ++ [ChatMessage.mk "user" input]).map
              ChatMessage.toJson)),
           ("stream", .bool true),
           ("model", .str model)] }

/-- The lines of one read chunk that the chat loop processes:
`chunk.split('\n').filter(line => line.trim() && line.startsWith('data: '))`. -/
def chatLines (chunk : String) : List String :=
  (jsSplitNewline chunk).filter (fun l => !(jsTrim l = "") && jsStartsWith l "data: ")

/-- `data.choices && data.choices[0]?.delta?.content`, and the appended
value when truthy.  A truthy non-string `content` (never produced by a chat
stream) would be string-coerced by `+=` in JavaScript; the model restricts
the appended value to strings. -/
def extractDelta (j : Json) : Option String :=
  match j.getField "choices" with
  | some choices =>
    if choices.truthy then
      match choices.index0 with
      | some c0 =>
        match c0.getField "delta" with
        | some d =>
          match d.getField "content" with
          | some (.str s) => if s = "" then none else some s
          | _ => none
        | none => none
      | none => none
    else none
  | none => none

/-- Processing of one kept line: strip the `data: ` prefix (the source uses
`line.replace('data: ', '')`, which on a line that starts with `data: `
removes exactly that prefix), skip the `[DONE]` sentinel, parse the payload
(a parse error is logged and the line skipped), extract the delta. -/
def lineDelta (line : String) : Option String :=
  let payload := jsDrop line 6
  if payload = "[DONE]" then none
  else
    match jsonParse payload with
    | some j => extractDelta j
    | none => none

/-- Fold one read chunk into the accumulated assistant content. -/
def chatChunkStep (content : String) (chunk : String) : String :=
  (chatLines chunk).foldl (fun acc l => acc ++ ((lineDelta l).getD "")) content

/-- The assistant content after the read loop has consumed the whole
response (`done` becomes true at the end of the chunk list).  Each chunk is
the text of one `reader.read()`. -/
def chatFinalContent (chunks : List String) : String :=
  chunks.foldl chatChunkStep ""

/-- The delta contents of those `data: ` lines that arrive whole within a
single read and parse as delta events, in arrival order. -/
def chatDeltas (chunks : List String) : List String :=
  (chunks.flatMap chatLines).filterMap lineDelta

/-- Concatenation of a list of strings. -/
def strConcat : List String → String
  | [] => ""
  | s :: ss => s ++ strConcat ss

/-! ### Pull (`startPull` in `Llmm.vue`) -/

/-- The component state `startPull` manipulates. `pullStatus` and
`pullError` hold the raw JavaScript values assigned from the parsed events. -/
structure PullState where
  pullProgress : Int
  pullStatus : Json
  pullError : Option Json
  pullComplete : Bool
  pullInProgress : Bool

/-- The state set up at the top of `startPull` (after the falsy-name
guard). -/
def pullInit : PullState :=
  { pullProgress := 0
    pullStatus := .str "Starting pull..."
    pullError := none
    pullComplete := false
    pullInProgress := true }

/-- `Math.round((data.completed / data.total) * 100)` for integer byte
counts: `Math.round` rounds half toward positive infinity; for `0 ≤ c` and
`0 < t` this equals `(200 * c + t) / (2 * t)` in natural division. -/
def jsRound100 (c t : Int) : Int :=
  (200 * c + t) / (2 * t)

/-- The value assigned to `pullProgress` when both counts are truthy.  For
truthy non-numeric counts (never produced by a pull stream) JavaScript
would compute `NaN`; the model yields 0 there. -/
def pullProgressValue (oc ot : Option Json) : Int :=
  match oc, ot with
  | some (.num c), some (.num t) => jsRound100 c t
  | _, _ => 0

/-- Processing of one parsed pull event, following the source order: a
truthy `error` stores the error and returns from `startPull` (second
component `true` = the stream-consuming loop is abandoned); otherwise a
truthy `status` is stored, the progress is updated only under
`data.completed && data.total`, and `status === 'success'` marks the pull
complete. -/
def pullStep (st : PullState) (j : Json) : PullState × Bool :=
  if fieldTruthy j "error" then
    ({ st with pullError := j.getField "error", pullInProgress := false }, true)
  else
    let st1 :=
      if fieldTruthy j "status" then
        { st with pullStatus := (j.getField "status").getD .null }
      else st
    let st2 :=
      if fieldTruthy j "completed" && fieldTruthy j "total" then
        { st1 with
            pullProgress := pullProgressValue (j.getField "completed") (j.getField "total") }
      else st1
    let st3 :=
      if statusIsSuccess j then
        { st2 with pullComplete := true, pullInProgress := false }
      else st2
    (st3, false)

/-- Run the pull loop over a list of parsed events; the Bool records
whether the loop was abandoned by the `error` early return. -/
def runPullEvents : PullState → List Json → PullState × Bool
  | st, [] => (st, false)
  | st, j :: rest =>
    match pullStep st j with
    | (st', true) => (st', true)
    | (st', false) => runPullEvents st' rest

/-- The non-blank lines of one read chunk:
`chunk.split('\n').filter(line => line.trim())`. -/
def pullLines (chunk : String) : List String :=
  (jsSplitNewline chunk).filter (fun l => !(jsTrim l = ""))

/-- All parsed events of the response, in arrival order: each non-blank
line of each read chunk is fed to `JSON.parse`; a line that fails to parse
is logged and skipped. -/
def pullEventsOf (chunks : List String) : List Json :=
  (chunks.flatMap pullLines).filterMap jsonParse

/-- State after the whole body of `startPull` has run on a list of parsed
events: the early `error` return skips the trailing
`if (!this.pullComplete)` block; in every path the `finally` clause clears
`pullInProgress`. -/
def runPullFinal (events : List Json) : PullState :=
  match runPullEvents pullInit events with
  | (st, true) => st
  | (st, false) =>
    if st.pullComplete then { st with pullInProgress := false }
    else { st with pullComplete := true, pullStatus := .str "Pull completed",
                   pullInProgress := false }

/-- `startPull`, request part: a falsy `pullModelName` returns without a
request; otherwise one POST with body `\x7b model_name: pullModelName \x7d`. -/
def startPullRequest (label name : String) : Option HttpRequest :=
  if name = "" then none
  else
    some
      { method := "POST"
        path := "/llmm/" ++ label ++ "/pull"
        body := .obj [("model_name", .str name)] }

/-- The whole `startPull` invocation on an OK response: the list of
requests it issues (one fetch, never retried) and the resulting state.
With a falsy model name nothing is issued and the ambient state `st0` is
untouched. -/
def startPull (label name : String) (st0 : PullState) (chunks : List String) :
    List HttpRequest × PullState :=
  match startPullRequest label name with
  | none => ([], st0)
  | some r => ([r], runPullFinal (pullEventsOf chunks))

/-! ### Registry snapshot view (`fetchEndpoints` and the host-row template
in `Llmm.vue`) -/

/-- String coercion of a JavaScript value as performed by template
interpolation (`String(v)`).  Array rendering (comma-joined elements, with
the refinement that `null` elements render empty) is simplified to a fixed
marker: no array is ever interpolated by this client. -/
def jsDisplay : Json → String
  | .null => "null"
  | .bool b => cond b "true" "false"
  | .num n => toString n
  | .str s => s
  | .arr _ => "[array]"
  | .obj _ => "[object Object]"

/-- `fetchEndpoints`, extraction part: the displayed mapping is read from
the `endpoints` field of the response body
(`this.endpoints = response.data.endpoints`). -/
def fetchEndpointsExtract (body : Json) : Option Json :=
  body.getField "endpoints"

/-- The host-row status dot: `:class="\x7b 'is-online': plugin.is_online \x7d"`
marks the host online by the truthiness of the record's `is_online` field. -/
def hostOnlineDisplayed (record : Json) : Bool :=
  fieldTruthy record "is_online"

/-- The host-row address cell: `plugin.ip || 'N/A'`. -/
def hostIpDisplayed (record : Json) : String :=
  match record.getField "ip" with
  | some v => if v.truthy then jsDisplay v else "N/A"
  | none => "N/A"

/-- Modelled from the spec: the registry snapshot contract of
`GET /registry` — the response body is directly the mapping from host label
to HostRecord (shape `\x7b "<label>": HostRecord, ... \x7d`). -/
def specSnapshotBody (snapshot : List (String × Json)) : Json :=
  Json.obj snapshot

/-- Modelled from the spec: a HostRecord carries its liveness under the
field name `online`. -/
def specHostOnline (record : Json) : Option Json :=
  record.getField "online"

/-- Modelled from the spec: a HostRecord carries its IP under the field
name `address`. -/
def specHostAddress (record : Json) : Option Json :=
  record.getField "address"

/-! ### Tick-driven refresh (`startRefresh`, `sendTick`, `fetchEndpoints`) -/

/-- Outcome of one axios round trip: a fulfilled response body, or a
rejection carrying `error.response?.data?.detail` (when a response arrived)
and `error.message`. -/
inductive AxiosResult where
  | ok (body : Json)
  | err (detail : Option Json) (message : String)

/-- The interval configuration installed by `startRefresh` (the previous
intervals are cleared first; an initial `fetchEndpoints` always runs). -/
structure RefreshSchedule where
  tickPeriodMs : Option Nat
  fetchPeriodMs : Nat
deriving DecidableEq

/-- `startRefresh`: at the adaptive interval (1000 ms) a tick is sent every
1000 ms and the cache polled every 2000 ms; at any other interval no ticks
are sent and the cache is polled at that interval. -/
def startRefresh (refreshInterval : Nat) : RefreshSchedule :=
  if refreshInterval = 1000 then { tickPeriodMs := some 1000, fetchPeriodMs := 2000 }
  else { tickPeriodMs := none, fetchPeriodMs := refreshInterval }

/-- Number of firings of a `setInterval` of period `p` within `(0, t]` ms. -/
def intervalFirings (p t : Nat) : Nat := t / p

/-- Tick requests sent within `(0, t]` ms of `startRefresh`. -/
def tickRequestsUpTo (s : RefreshSchedule) (t : Nat) : Nat :=
  match s.tickPeriodMs with
  | some p => intervalFirings p t
  | none => 0

/-- Snapshot fetches within `(0, t]` ms of `startRefresh`, plus the initial
`fetchEndpoints()`. -/
def fetchRequestsUpTo (s : RefreshSchedule) (t : Nat) : Nat :=
  intervalFirings s.fetchPeriodMs t + 1

/-- The displayed endpoint state (`this.endpoints`; `none` is the initial
`null` as well as an `undefined` read from a response). -/
structure MonitorState where
  endpoints : Option Json

/-- `sendTick`: posts `/llmm/tick`; both on fulfilment and on rejection it
only logs — the displayed state is untouched. -/
def sendTickApply (st : MonitorState) (_ : AxiosResult) : MonitorState :=
  st

/-- `fetchEndpoints`, state part: on fulfilment the displayed mapping is
replaced by the `endpoints` field of the body; on rejection the error is
logged and the state kept. -/
def fetchEndpointsApply (st : MonitorState) : AxiosResult → MonitorState
  | .ok body => { st with endpoints := fetchEndpointsExtract body }
  | .err _ _ => st

/-- One completed request of the refresh loop, with its outcome. -/
inductive RefreshEvent where
  | tick (r : AxiosResult)
  | fetch (r : AxiosResult)

/-- State transition of one completed refresh-loop request. -/
def refreshApply (st : MonitorState) : RefreshEvent → MonitorState
  | .tick r => sendTickApply st r
  | .fetch r => fetchEndpointsApply st r

/-- The displayed state after a sequence of completed refresh-loop
requests. -/
def runRefresh (st : MonitorState) (evs : List RefreshEvent) : MonitorState :=
  evs.foldl refreshApply st

/-- Accumulator step: remember the body of the latest fulfilled snapshot
fetch. -/
def lastFetchStep (acc : Option Json) : RefreshEvent → Option Json
  | .fetch (.ok b) => some b
  | _ => acc

/-- The body of the last fulfilled snapshot fetch in a request sequence. -/
def lastFetchBody (evs : List RefreshEvent) : Option Json :=
  evs.foldl lastFetchStep none

/-! ### Model deletion (`deleteModel` in `Llmm.vue`) -/

/-- `refreshResponse.data.models || []`: the value shown as the model list
after a refresh. -/
def modelsOrEmpty (body : Json) : Json :=
  match body.getField "models" with
  | some v => if v.truthy then v else .arr []
  | none => .arr []

/-- The component state `deleteModel` manipulates: the confirmation dialog,
the pending model name, the displayed model list, and the last `alert`. -/
structure DeleteDialogState where
  deleteConfirmModalActive : Bool
  modelToDelete : Option String
  listModels : Json
  alertMessage : Option String

/-- `error.response?.data?.detail || error.message` (template-literal
string coercion of the detail). -/
def errDetail (detail : Option Json) (message : String) : String :=
  match detail with
  | some v => if v.truthy then jsDisplay v else message
  | none => message

/-- The DELETE request issued for a pending model. -/
def deleteRequest (label m : String) : HttpRequest :=
  { method := "DELETE"
    path := "/llmm/" ++ label ++ "/delete"
    body := .obj [("model_name", .str m)] }

/-- The GET that refreshes the model list after a successful deletion. -/
def modelsRefreshRequest (label : String) : HttpRequest :=
  { method := "GET", path := "/llmm/" ++ label ++ "/models", body := .null }

/-- `deleteModel`: with no pending model the handler returns at once.
Otherwise one DELETE with body `\x7b model_name: modelToDelete \x7d` is issued.
Only a fulfilled response whose body has `status === 'success'` closes the
confirmation dialog, clears the pending model and refreshes the model list
(a GET whose outcome `refreshResp` replaces the list only on fulfilment).
A fulfilled non-success body changes nothing; a rejection changes nothing
but surfaces `Failed to delete model: <detail or message>` via `alert`. -/
def deleteModel (label : String) (st : DeleteDialogState) (resp : AxiosResult)
    (refreshResp : AxiosResult) : List HttpRequest × DeleteDialogState :=
  match st.modelToDelete with
  | none => ([], st)
  | some m =>
    match resp with
    | .ok body =>
      if statusIsSuccess body then
        let newList :=
          match refreshResp with
          | .ok rb => modelsOrEmpty rb
          | .err _ _ => st.listModels
        ([deleteRequest label m, modelsRefreshRequest label],
         { st with deleteConfirmModalActive := false, modelToDelete := none,
                   listModels := newList })
      else ([deleteRequest label m], st)
    | .err detail msg =>
      ([deleteRequest label m],
       { st with alertMessage := some ("Failed to delete model: " ++ errDetail detail msg) })

/-! ### Bulk alias creation (`createLitellmModels` in `Llmm.vue`, rendering
of `litellmResults`, and the spec-modelled server side) -/

/-- One per-host outcome row of a bulk creation, as rendered by the
results list of the LiteLLM modal. -/
structure AliasResult where
  host : String
  success : Bool
  litellm_model_name : Option String
  error : Option String
deriving DecidableEq

/-- The aggregate the modal renders: the two counts and the per-host rows. -/
structure BulkResult where
  successes : Nat
  failures : Nat
  results : List AliasResult
deriving DecidableEq

/-- `createLitellmModels`, request part: with a falsy model name, falsy
provider model or empty selection the handler returns at once; otherwise
one POST carrying `model_name`, `ollama_model` and `host_labels`. -/
def createLitellmModelsRequest (modelName ollamaModel : String)
    (selectedHosts : List String) : Option HttpRequest :=
  if modelName = "" || ollamaModel = "" || selectedHosts.isEmpty then none
  else
    some
      { method := "POST"
        path := "/llmm/litellm/models/bulk-create"
        body := .obj
          [("model_name", .str modelName),
           ("ollama_model", .str ollamaModel),
           ("host_labels", .arr (selectedHosts.map .str))] }

/-- Modelled from the spec: the server side of
`POST /llmm/litellm/models/bulk-create` is not part of this repository's
sources.  Per §4.6, for each host label one alias-creation call is
attempted independently (`outcome h` is host `h`'s provider call); a
failure for one host never aborts the others; the alias id for host `h` is
`h ++ "-" ++ modelName`; the aggregate counts successes and failures over
the full per-host result list. -/
def bulkCreate (hostLabels : List String) (modelName : String)
    (outcome : String → Except String Unit) : BulkResult :=
  let results := hostLabels.map fun h =>
    match outcome h with
    | .ok _ =>
      { host := h, success := true,
        litellm_model_name := some (h ++ "-" ++ modelName), error := none }
    | .error e =>
      { host := h, success := false, litellm_model_name := none, error := some e }
  { successes := (results.filter (·.success)).length
    failures := (results.filter (fun r => !r.success)).length
    results := results }

/-- Rendering of one result row: the host label, then on success the alias
id and on failure the error text. -/
def displayAliasResult (r : AliasResult) : String × String :=
  (r.host, if r.success then (r.litellm_model_name.getD "") else (r.error.getD ""))

/-- Rendering of `litellmResults`: the `successes succeeded, failures
failed` headline and one row per result. -/
def displayBulkResult (b : BulkResult) : (Nat × Nat) × List (String × String) :=
  ((b.successes, b.failures), b.results.map displayAliasResult)

/-! ### VRAM and expiry display helpers (`Llmm.vue`) -/

/-- One entry of a host's `models` array, with the fields these helpers
read.  `size_vram` is `none` when absent (`model.size_vram || 0` also sends
an explicit 0 there); `expires_at` is `none` when absent or falsy, and a
present timestamp is modelled as the parsed instant. -/
structure OllamaModel where
  name : String
  size_vram : Option Nat
  expires_at : Option Int

/-- The reduce inside the VRAM helpers:
`models.reduce((acc, model) => acc + (model.size_vram || 0), 0)`. -/
def sumVram (ms : List OllamaModel) : Nat :=
  ms.foldl (fun acc m => acc + m.size_vram.getD 0) 0

/-- `calculateVramUsage`: 0 on a nullish or empty list, otherwise the total
VRAM as a percentage of 16 GiB. -/
def calculateVramUsage : Option (List OllamaModel) → ℚ
  | none => 0
  | some ms =>
    if ms.isEmpty then 0
    else (sumVram ms : ℚ) / (16 * 1024 ^ 3) * 100

/-- `toFixed(1)` for a non-negative value: round half up to one decimal
place and print `whole.tenth` (float-representation artifacts of the
JavaScript original are not modelled). -/
def toFixed1 (q : ℚ) : String :=
  let n := ⌊10 * q + 1 / 2⌋
  toString (n / 10) ++ "." ++ toString (n % 10)

/-- `formatVramUsage`: `'0%'` on a nullish or empty list, otherwise the
recomputed percentage rendered to one decimal place. -/
def formatVramUsage : Option (List OllamaModel) → String
  | none => "0%"
  | some ms =>
    if ms.isEmpty then "0%"
    else toFixed1 ((sumVram ms : ℚ) / (16 * 1024 ^ 3) * 100) ++ "%"

/-- `getVramClass`: classify `calculateVramUsage(models)`. -/
def getVramClass (models : Option (List OllamaModel)) : String :=
  let usage := calculateVramUsage models
  if usage > 80 then "is-danger"
  else if usage > 60 then "is-warning"
  else "is-success"

/-- One step of the reduce inside `formatTimeRemaining`: a model without
an expiry (falsy `expires_at`) keeps the accumulator; otherwise
`expiryTime > latest ? expiryTime : latest`. -/
def expiryStep (latest : Option Int) (m : OllamaModel) : Option Int :=
  match m.expires_at with
  | none => latest
  | some t =>
    match latest with
    | none => some t
    | some l => if t > l then some t else some l

/-- The reduce inside `formatTimeRemaining`: keep the latest expiry among
the models that carry one, starting from `null`. -/
def latestExpiry (ms : List OllamaModel) : Option Int :=
  ms.foldl expiryStep none

/-- The expiry timestamps present in a (possibly nullish) model list. -/
def expiries : Option (List OllamaModel) → List Int
  | none => []
  | some ms => ms.filterMap (·.expires_at)

/-- `formatTimeRemaining`: `'N/A'` on a nullish or empty list or when no
model carries an expiry; otherwise `formatDistanceToNow` (the external
date-fns renderer, abstracted as `fmt`) applied to the latest expiry. -/
def formatTimeRemaining (fmt : Int → String) :
    Option (List OllamaModel) → String
  | none => "N/A"
  | some ms =>
    if ms.isEmpty then "N/A"
    else
      match latestExpiry ms with
      | none => "N/A"
      | some t => fmt t

/-! ### Concrete values used by counterexamples and witnesses -/

/-- A spec-shaped HostRecord: liveness under `online`, IP under `address`. -/
def c1SpecRecord : Json :=
  Json.obj [("online", .bool true), ("address", .str "10.0.0.1")]

/-- First read: the front of a chat delta line, cut inside the JSON payload. -/
def c5chunkA : String := "data: \x7b\"choices\":[\x7b\"delta\":\x7b\"content\":\"ab"

/-- Second read: the remainder of the same line. -/
def c5chunkB : String := "c\"\x7d\x7d]\x7d\n"

/-! ### Helper lemmas -/

theorem strConcat_append (xs ys : List String) :
    strConcat (xs ++ ys) = strConcat xs ++ strConcat ys := by
  induction xs with
  | nil => simp [strConcat]
  | cons x xs ih => simp [strConcat, ih, String.append_assoc]

theorem foldl_lineDelta (lines : List String) (acc : String) :
    lines.foldl (fun a l => a ++ ((lineDelta l).getD "")) acc
      = acc ++ strConcat (lines.filterMap lineDelta) := by
  induction lines generalizing acc with
  | nil => simp [strConcat]
  | cons l rest ih =>
    rw [List.foldl_cons, ih, List.filterMap_cons]
    cases h : lineDelta l with
    | none => simp
    | some s => simp [strConcat, String.append_assoc]

theorem chatChunkStep_eq (acc chunk : String) :
    chatChunkStep acc chunk = acc ++ strConcat ((chatLines chunk).filterMap lineDelta) :=
  foldl_lineDelta _ _

theorem chatFinalContent_from (chunks : List String) (acc : String) :
    chunks.foldl chatChunkStep acc = acc ++ strConcat (chatDeltas chunks) := by
  induction chunks generalizing acc with
  | nil => simp [chatDeltas, strConcat]
  | cons c rest ih =>
    rw [List.foldl_cons, ih, chatChunkStep_eq]
    simp [chatDeltas, List.flatMap_cons, List.filterMap_append, strConcat_append,
      String.append_assoc]

/-! ### C1 -/

/-- C1: the claim's registry-snapshot contract fails on the client: a body
shaped as the spec's direct label → HostRecord mapping with fields `online`
and `address` yields no displayed mapping at all (`response.data.endpoints`
is `undefined`), and a record carrying `online: true` / `address` is
displayed as offline with address `N/A`, because the client reads
`is_online` and `ip`. -/
theorem snapshot_contract_counterexample :
    fetchEndpointsExtract (specSnapshotBody [("hostA", c1SpecRecord)]) = none
    ∧ specHostOnline c1SpecRecord = some (.bool true)
    ∧ hostOnlineDisplayed c1SpecRecord = false
    ∧ specHostAddress c1SpecRecord = some (.str "10.0.0.1")
    ∧ hostIpDisplayed c1SpecRecord = "N/A" :=
  ⟨rfl, rfl, rfl, rfl, rfl⟩

/-- C1 (amended): the snapshot read by the client is the `endpoints` field
of the GET response body (shape `\x7b endpoints: \x7b "<label>": HostRecord ... \x7d \x7d`),
and each displayed HostRecord carries its liveness flag under `is_online`
and its IP under `ip`. -/
theorem snapshot_fields_amended :
    (∀ m : List (String × Json),
      fetchEndpointsExtract (Json.obj [("endpoints", Json.obj m)]) = some (Json.obj m))
    ∧ (∀ (rest : List (String × Json)) (b : Bool),
        hostOnlineDisplayed (Json.obj (("is_online", Json.bool b) :: rest)) = b)
    ∧ (∀ (rest : List (String × Json)) (s : String), s ≠ "" →
        hostIpDisplayed (Json.obj (("ip", Json.str s) :: rest)) = s) := by
  refine ⟨fun m => rfl, fun rest b => ?_, fun rest s hs => ?_⟩
  · cases b <;> rfl
  · simp [hostIpDisplayed, Json.getField, List.lookup, Json.truthy, jsDisplay, hs]

/-- C1 witness: the amended statement evaluated at a one-host snapshot. -/
theorem snapshot_fields_amended_witness :
    fetchEndpointsExtract
        (Json.obj [("endpoints", Json.obj [("hostA", c1SpecRecord)])])
      = some (Json.obj [("hostA", c1SpecRecord)])
    ∧ hostOnlineDisplayed (Json.obj [("is_online", Json.bool true)]) = true
    ∧ hostIpDisplayed (Json.obj [("ip", Json.str "10.0.0.1")]) = "10.0.0.1" :=
  ⟨snapshot_fields_amended.1 [("hostA", c1SpecRecord)],
   snapshot_fields_amended.2.1 [] true,
   snapshot_fields_amended.2.2 [] "10.0.0.1" (by decide)⟩

/-! ### C4 -/

/-- C4: for every non-blank input the chat request is one POST whose JSON
body carries exactly the fields `messages`, `stream: true` and `model`; a
blank input issues no request; the stream loop processes only lines
prefixed `data: `; and the `[DONE]` sentinel payload is skipped without
being treated as a delta.  (The loop finishes when `reader.read()` reports
`done`, i.e. at the end of the chunk list — `chatFinalContent` is a total
fold over it.) -/
theorem chat_wire_contract :
    (∀ label history input model, jsTrim input ≠ "" →
      sendMessageRequest label history input model =
        some
          { method := "POST", path := "/llmm/" ++ label ++ "/chat",
            body := Json.obj
              [("messages", .arr ((history ++ [ChatMessage.mk "user" input]).map
                  ChatMessage.toJson)),
               ("stream", .bool true),
               ("model", .str model)] })
    ∧ (∀ label history input model, jsTrim input = "" →
        sendMessageRequest label history input model = none)
    ∧ (∀ chunk l, l ∈ chatLines chunk → jsStartsWith l "data: " = true)
    ∧ lineDelta "data: [DONE]" = none := by
  refine ⟨fun label history input model h => ?_, fun label history input model h => ?_,
    fun chunk l hl => ?_, rfl⟩
  · simp [sendMessageRequest, h]
  · simp [sendMessageRequest, h]
  · have := (List.mem_filter.mp hl).2
    simp only [Bool.and_eq_true] at this
    exact this.2

/-- C4 witness: the contract evaluated at a concrete invocation. -/
theorem chat_wire_contract_witness :
    sendMessageRequest "hostA" [] "hello" "llama3" =
      some
        { method := "POST", path := "/llmm/" ++ "hostA" ++ "/chat",
          body := Json.obj
            [("messages", .arr (([] ++ [ChatMessage.mk "user" "hello"]).map
                ChatMessage.toJson)),
             ("stream", .bool true),
             ("model", .str "llama3")] }
    ∧ sendMessageRequest "hostA" [] "   " "llama3" = none :=
  ⟨chat_wire_contract.1 "hostA" [] "hello" "llama3" (by decide),
   chat_wire_contract.2.1 "hostA" [] "   " "llama3" (by decide)⟩

/-! ### C5 -/

/-- C5: the claim fails on the code: the same byte stream (one chat delta
whose content is `abc`), delivered in one read, produces final content
`abc`; delivered in two reads that split its `data: ` line, it produces
`""` — the delta is dropped, because each read chunk is split on newlines
with no carry-over buffer. -/
theorem chat_chunking_counterexample :
    c5chunkA ++ c5chunkB
        = "data: \x7b\"choices\":[\x7b\"delta\":\x7b\"content\":\"abc\"\x7d\x7d]\x7d\n"
    ∧ chatDeltas [c5chunkA ++ c5chunkB] = ["abc"]
    ∧ chatFinalContent [c5chunkA ++ c5chunkB] = "abc"
    ∧ chatFinalContent [c5chunkA, c5chunkB] = ""
    ∧ chatFinalContent [c5chunkA, c5chunkB]
        ≠ strConcat (chatDeltas [c5chunkA ++ c5chunkB]) := by
  refine ⟨rfl, rfl, rfl, rfl, ?_⟩
  decide

/-- C5 (amended): for every sequence of reads, the final assistant message
content equals the concatenation, in arrival order, of the
`choices[0].delta.content` fields of exactly those delta events whose
`data: ` line arrives whole within a single read and parses — none of these
is dropped, duplicated or reordered; an event whose line is split across
two reads is dropped. -/
theorem chat_content_eq_deltas (chunks : List String) :
    chatFinalContent chunks = strConcat (chatDeltas chunks) := by
  rw [chatFinalContent, chatFinalContent_from, String.empty_append]

/-! ### Pull helper lemmas -/

/-- Both byte-count fields, when present, are numbers (as in every real
progress event). -/
def countsNumeric (j : Json) : Prop :=
  (∀ v, j.getField "completed" = some v → ∃ n : Int, v = .num n) ∧
  (∀ v, j.getField "total" = some v → ∃ n : Int, v = .num n)

theorem pullStep_error_eq (st : PullState) (j : Json)
    (he : fieldTruthy j "error" = true) :
    pullStep st j =
      ({ st with pullError := j.getField "error", pullInProgress := false }, true) := by
  simp [pullStep, he]

theorem pullStep_snd_false (st : PullState) (j : Json)
    (he : fieldTruthy j "error" = false) : (pullStep st j).2 = false := by
  simp only [pullStep, he]
  cases fieldTruthy j "status" <;>
    cases fieldTruthy j "completed" && fieldTruthy j "total" <;>
      cases statusIsSuccess j <;> simp

theorem pullStep_progress_eq (st : PullState) (j : Json)
    (he : fieldTruthy j "error" = false) :
    ((pullStep st j).1).pullProgress =
      if fieldTruthy j "completed" && fieldTruthy j "total" then
        pullProgressValue (j.getField "completed") (j.getField "total")
      else st.pullProgress := by
  simp only [pullStep, he]
  cases hst : fieldTruthy j "status" <;>
    cases hct : fieldTruthy j "completed" && fieldTruthy j "total" <;>
      cases hsc : statusIsSuccess j <;> simp

theorem pullStep_complete_eq (st : PullState) (j : Json)
    (he : fieldTruthy j "error" = false) :
    ((pullStep st j).1).pullComplete = (st.pullComplete || statusIsSuccess j) := by
  simp only [pullStep, he]
  cases hst : fieldTruthy j "status" <;>
    cases hct : fieldTruthy j "completed" && fieldTruthy j "total" <;>
      cases hsc : statusIsSuccess j <;> simp

theorem pullStep_inProgress_eq (st : PullState) (j : Json)
    (he : fieldTruthy j "error" = false) :
    ((pullStep st j).1).pullInProgress =
      if statusIsSuccess j then false else st.pullInProgress := by
  simp only [pullStep, he]
  cases hst : fieldTruthy j "status" <;>
    cases hct : fieldTruthy j "completed" && fieldTruthy j "total" <;>
      cases hsc : statusIsSuccess j <;> simp

theorem runPullEvents_append (st : PullState) (es fs : List Json) :
    runPullEvents st (es ++ fs) =
      match runPullEvents st es with
      | (st', true) => (st', true)
      | (st', false) => runPullEvents st' fs := by
  induction es generalizing st with
  | nil => simp [runPullEvents]
  | cons e rest ih =>
    simp only [List.cons_append, runPullEvents]
    rcases h : pullStep st e with ⟨st', stop⟩
    cases stop <;> simp [ih]

theorem runPullEvents_no_stop (st : PullState) (es : List Json)
    (h : ∀ e ∈ es, fieldTruthy e "error" = false) :
    (runPullEvents st es).2 = false := by
  induction es generalizing st with
  | nil => simp [runPullEvents]
  | cons e rest ih =>
    simp only [runPullEvents]
    rcases hp : pullStep st e with ⟨st', stop⟩
    have hs : stop = false := by
      have := pullStep_snd_false st e (h e (by simp))
      rw [hp] at this; exact this
    subst hs
    exact ih st' (fun e' he' => h e' (by simp [he']))

theorem runPullEvents_not_complete (st : PullState) (es : List Json)
    (h : ∀ e ∈ es, fieldTruthy e "error" = false)
    (hsucc : ∀ e ∈ es, statusIsSuccess e = false)
    (h0 : st.pullComplete = false) :
    ((runPullEvents st es).1).pullComplete = false := by
  induction es generalizing st with
  | nil => simpa [runPullEvents]
  | cons e rest ih =>
    simp only [runPullEvents]
    rcases hp : pullStep st e with ⟨st', stop⟩
    have hcomp : st'.pullComplete = false := by
      have hce := pullStep_complete_eq st e (h e (by simp))
      rw [hp] at hce
      rw [hce, h0, hsucc e (by simp), Bool.or_self]
    cases stop
    · exact ih st' (fun e' he' => h e' (by simp [he']))
        (fun e' he' => hsucc e' (by simp [he'])) hcomp
    · simpa using hcomp

/-! ### C2 -/

/-- C2: the pull wire contract.  For every non-empty model name the request
is one POST whose JSON body is exactly `\x7b model_name: <name> \x7d` (an empty
name issues no request); blank lines of the newline-delimited stream are
ignored; the progress is updated exactly when both byte counts are present
and non-zero, to `Math.round(completed / total * 100)` — which for
non-negative counts equals the rational rounding `round(c / t * 100)` —
and a `status` of `'success'` marks the pull complete and no longer in
progress. -/
theorem pull_wire_contract :
    (∀ label name, name ≠ "" →
      startPullRequest label name =
        some
          { method := "POST", path := "/llmm/" ++ label ++ "/pull",
            body := Json.obj [("model_name", .str name)] })
    ∧ (∀ label, startPullRequest label "" = none)
    ∧ (∀ chunks : List String,
        runPullFinal (pullEventsOf (chunks ++ ["\n  \n"])) =
          runPullFinal (pullEventsOf chunks))
    ∧ (∀ (st : PullState) (j : Json), fieldTruthy j "error" = false → countsNumeric j →
        ((pullStep st j).1).pullProgress =
          match j.getField "completed", j.getField "total" with
          | some (.num c), some (.num t) =>
            if c ≠ 0 ∧ t ≠ 0 then jsRound100 c t else st.pullProgress
          | _, _ => st.pullProgress)
    ∧ (∀ c t : Int, 0 ≤ c → 0 < t → jsRound100 c t = round ((c : ℚ) / (t : ℚ) * 100))
    ∧ (∀ (st : PullState) (j : Json), fieldTruthy j "error" = false →
        statusIsSuccess j = true →
        ((pullStep st j).1).pullComplete = true
          ∧ ((pullStep st j).1).pullInProgress = false) := by
  refine ⟨fun label name h => ?_, fun label => rfl, fun chunks => ?_,
    fun st j he hcn => ?_, fun c t hc ht => ?_, fun st j he hs => ?_⟩
  · simp [startPullRequest, h]
  · have hb : pullLines "\n  \n" = [] := rfl
    simp [pullEventsOf, List.flatMap_append, hb]
  · rw [pullStep_progress_eq st j he]
    rcases h1 : j.getField "completed" with _ | v1
    · simp [fieldTruthy, h1]
    · obtain ⟨cv, rfl⟩ := hcn.1 v1 h1
      rcases h2 : j.getField "total" with _ | v2
      · simp [fieldTruthy, h1, h2]
      · obtain ⟨tv, rfl⟩ := hcn.2 v2 h2
        simp only [fieldTruthy, h1, h2, Json.truthy]
        by_cases hcz : cv = 0 <;> by_cases htz : tv = 0 <;>
          simp [hcz, htz, pullProgressValue, bne]
  · have h2 : (((2 * t).toNat : ℕ) : ℚ) = 2 * (t : ℚ) := by
      have hnn : (0 : ℤ) ≤ 2 * t := by omega
      rw [← Int.cast_natCast (R := ℚ), Int.toNat_of_nonneg hnn]
      push_cast
      ring
    have ht' : (t : ℚ) ≠ 0 := by
      exact_mod_cast ht.ne'
    have harg : (c : ℚ) / (t : ℚ) * 100 + 1 / 2
        = ((200 * c + t : ℤ) : ℚ) / (((2 * t).toNat : ℕ) : ℚ) := by
      rw [h2]
      push_cast
      field_simp
      ring
    rw [round_eq, harg, Rat.floor_intCast_div_natCast, Int.toNat_of_nonneg (by omega)]
    rfl
  · constructor
    · rw [pullStep_complete_eq st j he, hs, Bool.or_true]
    · rw [pullStep_inProgress_eq st j he, hs, if_pos rfl]

/-- A concrete progress event: `completed 5` of `total 10`. -/
def pullEvHalf : Json :=
  Json.obj [("status", .str "downloading"), ("completed", .num 5), ("total", .num 10)]

/-- A concrete success event. -/
def pullEvSuccess : Json := Json.obj [("status", .str "success")]

/-- A concrete error event. -/
def pullEvError : Json := Json.obj [("error", .str "connection dropped")]

/-- C2 witness: the contract evaluated at a concrete invocation and a
concrete half-way progress event. -/
theorem pull_wire_contract_witness :
    startPullRequest "hostA" "llama3" =
      some
        { method := "POST", path := "/llmm/" ++ "hostA" ++ "/pull",
          body := Json.obj [("model_name", .str "llama3")] }
    ∧ ((pullStep pullInit pullEvHalf).1).pullProgress = 50
    ∧ jsRound100 5 10 = round ((5 : ℚ) / (10 : ℚ) * 100)
    ∧ ((pullStep pullInit pullEvSuccess).1).pullComplete = true := by
  have h := pull_wire_contract
  refine ⟨h.1 "hostA" "llama3" (by decide), ?_, ?_, ?_⟩
  · have hp := h.2.2.2.1 pullInit pullEvHalf (by decide)
      ⟨fun v hv => by
          simp only [pullEvHalf, Json.getField, List.lookup] at hv
          exact ⟨5, by simpa using hv.symm⟩,
        fun v hv => by
          simp only [pullEvHalf, Json.getField, List.lookup] at hv
          exact ⟨10, by simpa using hv.symm⟩⟩
    rw [hp]
    decide
  · exact h.2.2.2.2.1 5 10 (by decide) (by decide)
  · exact (h.2.2.2.2.2 pullInit pullEvSuccess (by decide) (by decide)).1

/-! ### C3 -/

/-- C3: a pull stream that yields an error event after a prefix of progress
events (no truthy `error`, no `success` status) leaves the client in the
state reached after exactly that prefix, with the error string stored
verbatim, the pull not in progress and not complete; the suffix after the
error event is never consumed (the result does not depend on it, and the
loop is abandoned so the trailing completion block is skipped); and a
`startPull` invocation issues at most one request — there is no retry. -/
theorem pull_error_stops (pre suf : List Json) (ev : Json) (s : String)
    (hpre : ∀ e ∈ pre, fieldTruthy e "error" = false)
    (hpresucc : ∀ e ∈ pre, statusIsSuccess e = false)
    (herr : ev.getField "error" = some (.str s)) (hs : s ≠ "") :
    runPullFinal (pre ++ ev :: suf) =
      { (runPullEvents pullInit pre).1 with
          pullError := some (.str s), pullInProgress := false }
    ∧ (runPullFinal (pre ++ ev :: suf)).pullComplete = false
    ∧ (runPullFinal (pre ++ ev :: suf)).pullError = some (.str s)
    ∧ (∀ label name (st0 : PullState) chunks,
        ((startPull label name st0 chunks).1).length ≤ 1) := by
  have hevt : fieldTruthy ev "error" = true := by
    simp [fieldTruthy, herr, Json.truthy, hs]
  have hnostop : (runPullEvents pullInit pre).2 = false :=
    runPullEvents_no_stop pullInit pre hpre
  have hcomp : ((runPullEvents pullInit pre).1).pullComplete = false :=
    runPullEvents_not_complete pullInit pre hpre hpresucc rfl
  have hrun : runPullEvents pullInit (pre ++ ev :: suf) =
      ({ (runPullEvents pullInit pre).1 with
          pullError := some (.str s), pullInProgress := false }, true) := by
    rw [runPullEvents_append]
    rcases hr : runPullEvents pullInit pre with ⟨st', stop⟩
    have : stop = false := by rw [hr] at hnostop; exact hnostop
    subst this
    simp only [runPullEvents]
    rw [pullStep_error_eq st' ev hevt, herr]
  have hfinal : runPullFinal (pre ++ ev :: suf) =
      { (runPullEvents pullInit pre).1 with
          pullError := some (.str s), pullInProgress := false } := by
    rw [runPullFinal, hrun]
  refine ⟨hfinal, ?_, ?_, ?_⟩
  · rw [hfinal]
    exact hcomp
  · rw [hfinal]
  · intro label name st0 chunks
    rw [startPull]
    rcases startPullRequest label name with _ | r <;> simp

/-- C3 witness: two progress events, then an error, then an unconsumed
success event. -/
theorem pull_error_stops_witness :
    runPullFinal ([pullEvHalf] ++ pullEvError :: [pullEvSuccess]) =
      { (runPullEvents pullInit [pullEvHalf]).1 with
          pullError := some (.str "connection dropped"), pullInProgress := false }
    ∧ (runPullFinal ([pullEvHalf] ++ pullEvError :: [pullEvSuccess])).pullComplete
        = false :=
  ⟨(pull_error_stops [pullEvHalf] [pullEvSuccess] pullEvError "connection dropped"
      (by decide) (by decide) rfl (by decide)).1,
   (pull_error_stops [pullEvHalf] [pullEvSuccess] pullEvError "connection dropped"
      (by decide) (by decide) rfl (by decide)).2.1⟩

/-! ### C7 -/

/-- C7: model deletion is atomic from the dialog's point of view.  With a
pending model and the confirmation dialog open: every invocation issues the
DELETE whose body is `\x7b model_name: <pending> \x7d` first; a fulfilled
response with `status === 'success'` — and only such a response — closes
the dialog, clears the pending model and replaces the displayed list with
the refresh result; a fulfilled non-success response changes nothing; a
rejection leaves dialog, pending model and list unchanged and surfaces the
server's error detail (falling back to the transport message) via `alert`. -/
theorem delete_model_atomic (label : String) (st : DeleteDialogState) (m : String)
    (hm : st.modelToDelete = some m) (hopen : st.deleteConfirmModalActive = true) :
    (∀ resp rr, ((deleteModel label st resp rr).1).head? = some (deleteRequest label m))
    ∧ (∀ body rr, statusIsSuccess body = true →
        deleteModel label st (.ok body) rr =
          ([deleteRequest label m, modelsRefreshRequest label],
           { st with deleteConfirmModalActive := false, modelToDelete := none,
                     listModels :=
                       (match rr with
                        | .ok rb => modelsOrEmpty rb
                        | .err _ _ => st.listModels) }))
    ∧ (∀ body rr, statusIsSuccess body = false →
        deleteModel label st (.ok body) rr = ([deleteRequest label m], st))
    ∧ (∀ detail msg rr,
        deleteModel label st (.err detail msg) rr =
          ([deleteRequest label m],
           { st with
               alertMessage :=
                 some ("Failed to delete model: " ++ errDetail detail msg) }))
    ∧ (∀ resp rr, ((deleteModel label st resp rr).2).deleteConfirmModalActive = false
        ↔ ∃ body, resp = .ok body ∧ statusIsSuccess body = true) := by
  refine ⟨fun resp rr => ?_, fun body rr hsucc => ?_, fun body rr hfail => ?_,
    fun detail msg rr => ?_, fun resp rr => ?_⟩
  · rcases resp with body | ⟨detail, msg⟩
    · by_cases hsucc : statusIsSuccess body <;> simp [deleteModel, hm, hsucc]
    · simp [deleteModel, hm]
  · simp [deleteModel, hm, hsucc]
  · simp [deleteModel, hm, hfail]
  · simp [deleteModel, hm]
  · rcases resp with body | ⟨detail, msg⟩
    · by_cases hsucc : statusIsSuccess body
      · refine iff_of_true ?_ ⟨body, rfl, hsucc⟩
        simp [deleteModel, hm, hsucc]
      · refine iff_of_false ?_ ?_
        · simp [deleteModel, hm, hsucc, hopen]
        · rintro ⟨b, hb, hs⟩
          cases hb
          exact hsucc hs
    · refine iff_of_false ?_ ?_
      · simp [deleteModel, hm, hopen]
      · rintro ⟨b, hb, _⟩
        cases hb

/-- The dialog state of the C7 witness: open, with `m1` pending. -/
def c7state : DeleteDialogState :=
  { deleteConfirmModalActive := true, modelToDelete := some "m1",
    listModels := Json.arr [.str "m1", .str "m2"], alertMessage := none }

/-- The success-response body and refresh response of the C7 witness. -/
def c7success : AxiosResult := .ok (Json.obj [("status", .str "success")])

/-- The refreshed model list of the C7 witness. -/
def c7refresh : AxiosResult := .ok (Json.obj [("models", .arr [.str "m2"])])

/-- C7 witness: the deletion flow evaluated at a concrete dialog state, a
success response and a rejection. -/
theorem delete_model_atomic_witness :
    deleteModel "hostA" c7state c7success c7refresh =
      ([deleteRequest "hostA" "m1", modelsRefreshRequest "hostA"],
       { c7state with deleteConfirmModalActive := false, modelToDelete := none,
                      listModels :=
                        (match c7refresh with
                         | .ok rb => modelsOrEmpty rb
                         | .err _ _ => c7state.listModels) })
    ∧ deleteModel "hostA" c7state (.err (some (.str "model in use")) "request failed")
        c7refresh =
      ([deleteRequest "hostA" "m1"],
       { c7state with
           alertMessage :=
             some ("Failed to delete model: "
               ++ errDetail (some (.str "model in use")) "request failed") }) :=
  ⟨(delete_model_atomic "hostA" c7state "m1" rfl rfl).2.1
      (Json.obj [("status", .str "success")]) c7refresh (by decide),
   (delete_model_atomic "hostA" c7state "m1" rfl rfl).2.2.2.1
      (some (.str "model in use")) "request failed" c7refresh⟩

/-! ### C6 helper lemma -/

theorem filter_success_split (rs : List AliasResult) :
    (rs.filter (·.success)).length + (rs.filter (fun r => !r.success)).length
      = rs.length := by
  induction rs with
  | nil => rfl
  | cons r rest ih =>
    cases hr : r.success <;> simp [List.filter_cons, hr] <;> omega

/-! ### C6 -/

/-- C6: bulk alias creation.  The client sends one request carrying exactly
`model_name`, `ollama_model` and `host_labels`; the (spec-modelled) bulk
creation produces one result per selected host in order — so a failed host
never removes another host's result — with `successes` and `failures`
counts that add up to the host count, alias id `host ++ "-" ++ modelName`
on success and an error string on failure; and the modal renders the two
counts plus one row per result. -/
theorem bulk_create_independent (hosts : List String) (modelName ollamaModel : String)
    (outcome : String → Except String Unit)
    (hm : modelName ≠ "") (ho : ollamaModel ≠ "") (hh : hosts ≠ []) :
    createLitellmModelsRequest modelName ollamaModel hosts =
      some
        { method := "POST", path := "/llmm/litellm/models/bulk-create",
          body := Json.obj
            [("model_name", .str modelName),
             ("ollama_model", .str ollamaModel),
             ("host_labels", .arr (hosts.map .str))] }
    ∧ (bulkCreate hosts modelName outcome).results.map (·.host) = hosts
    ∧ (bulkCreate hosts modelName outcome).successes
        + (bulkCreate hosts modelName outcome).failures = hosts.length
    ∧ (∀ r ∈ (bulkCreate hosts modelName outcome).results,
        (r.success = true →
          r.litellm_model_name = some (r.host ++ "-" ++ modelName) ∧ r.error = none)
        ∧ (r.success = false → ∃ e, r.error = some e))
    ∧ (displayBulkResult (bulkCreate hosts modelName outcome)).1
        = ((bulkCreate hosts modelName outcome).successes,
           (bulkCreate hosts modelName outcome).failures)
    ∧ ((displayBulkResult (bulkCreate hosts modelName outcome)).2).length
        = hosts.length := by
  refine ⟨?_, ?_, ?_, ?_, rfl, ?_⟩
  · have hne : hosts.isEmpty = false := by
      cases hosts
      · cases hh rfl
      · rfl
    simp [createLitellmModelsRequest, hm, ho, hne]
  · rw [bulkCreate, List.map_map]
    apply List.map_id''
    intro x
    simp only [Function.comp_apply]
    cases hx : outcome x <;> simp [hx]
  · rw [bulkCreate]
    have := filter_success_split ((hosts.map fun h =>
      match outcome h with
      | .ok _ =>
        { host := h, success := true,
          litellm_model_name := some (h ++ "-" ++ modelName), error := none }
      | .error e =>
        { host := h, success := false, litellm_model_name := none,
          error := some e }))
    simpa using this
  · intro r hr
    rw [bulkCreate] at hr
    simp only at hr
    obtain ⟨h, _, rfl⟩ := List.mem_map.mp hr
    cases outcome h <;> simp
  · simp [displayBulkResult, bulkCreate]

/-- The per-host provider outcome of the C6 witness: host `A` succeeds,
host `B` fails. -/
def c6outcome : String → Except String Unit :=
  fun h => if h = "A" then .ok () else .error "provider call failed"

/-- C6 witness: the bulk creation evaluated over hosts `[A, B]` with `B`
failing — one full result list, one success, one failure. -/
theorem bulk_create_independent_witness :
    createLitellmModelsRequest "m" "llama3" ["A", "B"] =
      some
        { method := "POST", path := "/llmm/litellm/models/bulk-create",
          body := Json.obj
            [("model_name", .str "m"),
             ("ollama_model", .str "llama3"),
             ("host_labels", .arr (["A", "B"].map .str))] }
    ∧ (bulkCreate ["A", "B"] "m" c6outcome).results.map (·.host) = ["A", "B"]
    ∧ (bulkCreate ["A", "B"] "m" c6outcome).successes
        + (bulkCreate ["A", "B"] "m" c6outcome).failures = 2
    ∧ bulkCreate ["A", "B"] "m" c6outcome =
        { successes := 1, failures := 1,
          results :=
            [{ host := "A", success := true, litellm_model_name := some "A-m",
               error := none },
             { host := "B", success := false, litellm_model_name := none,
               error := some "provider call failed" }] } := by
  have h := bulk_create_independent ["A", "B"] "m" "llama3" c6outcome
    (by decide) (by decide) (by simp)
  exact ⟨h.1, h.2.1, h.2.2.1, by decide⟩

/-! ### C8 helper lemmas -/

theorem lastFetch_foldl (evs : List RefreshEvent) (acc : Option Json) :
    evs.foldl lastFetchStep acc =
      match lastFetchBody evs with
      | some b => some b
      | none => acc := by
  induction evs generalizing acc with
  | nil => simp [lastFetchBody]
  | cons e rest ih =>
    have hb : lastFetchBody (e :: rest) = rest.foldl lastFetchStep (lastFetchStep none e) :=
      rfl
    rw [List.foldl_cons, ih, hb, ih (lastFetchStep none e)]
    rcases hlb : lastFetchBody rest with _ | b2
    · rcases e with r | r
      · rfl
      · rcases r with b' | ⟨d, msg⟩ <;> rfl
    · rfl

/-! ### C8 -/

/-- C8: the tick-driven refresh never conflates a tick with a state read.
At the adaptive interval (1000 ms) one tick request is sent per second and
the snapshot is fetched every 2000 ms (plus the initial fetch); at every
other interval no tick is ever sent and the snapshot is fetched at that
interval; a tick — fulfilled or failed — never changes the displayed
state; and after any sequence of completed requests the displayed endpoint
state comes exclusively from the last fulfilled snapshot fetch. -/
theorem tick_refresh_separation :
    startRefresh 1000 = { tickPeriodMs := some 1000, fetchPeriodMs := 2000 }
    ∧ (∀ i, i ≠ 1000 → startRefresh i = { tickPeriodMs := none, fetchPeriodMs := i })
    ∧ (∀ t, tickRequestsUpTo (startRefresh 1000) t = t / 1000
        ∧ fetchRequestsUpTo (startRefresh 1000) t = t / 2000 + 1)
    ∧ (∀ i t, i ≠ 1000 → tickRequestsUpTo (startRefresh i) t = 0
        ∧ fetchRequestsUpTo (startRefresh i) t = t / i + 1)
    ∧ (∀ (st : MonitorState) (r : AxiosResult), sendTickApply st r = st)
    ∧ (∀ (st : MonitorState) (evs : List RefreshEvent),
        runRefresh st evs =
          match lastFetchBody evs with
          | some b => { endpoints := fetchEndpointsExtract b }
          | none => st) := by
  refine ⟨rfl, fun i hi => ?_, fun t => ⟨rfl, rfl⟩, fun i t hi => ?_,
    fun st r => rfl, fun st evs => ?_⟩
  · simp [startRefresh, hi]
  · constructor <;>
      simp [startRefresh, hi, tickRequestsUpTo, fetchRequestsUpTo, intervalFirings]
  · induction evs generalizing st with
    | nil => simp [runRefresh, lastFetchBody]
    | cons e rest ih =>
      have hb : lastFetchBody (e :: rest)
          = rest.foldl lastFetchStep (lastFetchStep none e) := rfl
      have hrun : runRefresh st (e :: rest) = runRefresh (refreshApply st e) rest := rfl
      rw [hrun, ih, hb, lastFetch_foldl rest (lastFetchStep none e)]
      rcases hr : lastFetchBody rest with _ | b
      · rcases e with r | r
        · rfl
        · rcases r with b' | ⟨d, msg⟩ <;> rfl
      · rfl

/-- C8 witness: the schedule evaluated at the adaptive interval over one
minute, and at a 5000 ms interval. -/
theorem tick_refresh_separation_witness :
    startRefresh 5000 = { tickPeriodMs := none, fetchPeriodMs := 5000 }
    ∧ tickRequestsUpTo (startRefresh 5000) 60000 = 0
    ∧ fetchRequestsUpTo (startRefresh 5000) 60000 = 13
    ∧ tickRequestsUpTo (startRefresh 1000) 60000 = 60
    ∧ fetchRequestsUpTo (startRefresh 1000) 60000 = 31 := by
  have h := tick_refresh_separation
  refine ⟨h.2.1 5000 (by decide), ?_, ?_, ?_, ?_⟩
  · rw [(h.2.2.2.1 5000 60000 (by decide)).1]
  · rw [(h.2.2.2.1 5000 60000 (by decide)).2]
  · rw [(h.2.2.1 60000).1]
  · rw [(h.2.2.1 60000).2]

/-! ### C9 helper lemma -/

theorem sumVram_eq (ms : List OllamaModel) :
    sumVram ms = (ms.map (fun m => m.size_vram.getD 0)).sum := by
  have key : ∀ acc, ms.foldl (fun acc m => acc + m.size_vram.getD 0) acc
      = acc + (ms.map (fun m => m.size_vram.getD 0)).sum := by
    induction ms with
    | nil => intro acc; simp
    | cons m rest ih => intro acc; simp [ih]; omega
  simpa [sumVram] using key 0

/-! ### C9 -/

/-- C9: the VRAM display is internally consistent.  `calculateVramUsage` is
the sum of the models' `size_vram` (a missing value contributing 0) as a
percentage of 16 GiB, and 0 on a nullish or empty list; `formatVramUsage`
renders exactly that percentage to one decimal place (`'0%'` on a nullish
or empty list); and `getVramClass` classifies that same value as
`is-danger` iff it exceeds 80, `is-warning` iff it exceeds 60 but not 80,
and `is-success` otherwise. -/
theorem vram_display_consistent :
    calculateVramUsage none = 0
    ∧ (∀ ms, calculateVramUsage (some ms)
        = ((ms.map (fun m => m.size_vram.getD 0)).sum : ℚ) / (16 * 1024 ^ 3) * 100)
    ∧ formatVramUsage none = "0%"
    ∧ (∀ ms, formatVramUsage (some ms)
        = if ms.isEmpty then "0%" else toFixed1 (calculateVramUsage (some ms)) ++ "%")
    ∧ (∀ oms, (getVramClass oms = "is-danger" ↔ 80 < calculateVramUsage oms)
        ∧ (getVramClass oms = "is-warning"
            ↔ (60 < calculateVramUsage oms ∧ calculateVramUsage oms ≤ 80))
        ∧ (getVramClass oms = "is-success" ↔ calculateVramUsage oms ≤ 60)) := by
  refine ⟨rfl, fun ms => ?_, rfl, fun ms => ?_, fun oms => ?_⟩
  · rcases ms with _ | ⟨m, rest⟩
    · simp [calculateVramUsage]
    · simp [calculateVramUsage, sumVram_eq, Function.comp_def]
  · rcases ms with _ | ⟨m, rest⟩
    · rfl
    · rfl
  · by_cases h80 : 80 < calculateVramUsage oms
    · have hgc : getVramClass oms = "is-danger" := by simp [getVramClass, h80]
      refine ⟨iff_of_true hgc h80, iff_of_false ?_ ?_, iff_of_false ?_ ?_⟩
      · rw [hgc]; decide
      · rintro ⟨-, hle⟩; linarith
      · rw [hgc]; decide
      · intro hle; linarith
    · by_cases h60 : 60 < calculateVramUsage oms
      · have hgc : getVramClass oms = "is-warning" := by simp [getVramClass, h80, h60]
        refine ⟨iff_of_false ?_ h80, iff_of_true hgc ⟨h60, not_lt.mp h80⟩,
          iff_of_false ?_ ?_⟩
        · rw [hgc]; decide
        · rw [hgc]; decide
        · intro hle; linarith
      · have hgc : getVramClass oms = "is-success" := by simp [getVramClass, h80, h60]
        refine ⟨iff_of_false ?_ h80, iff_of_false ?_ ?_, iff_of_true hgc (not_lt.mp h60)⟩
        · rw [hgc]; decide
        · rw [hgc]; decide
        · rintro ⟨h, -⟩; exact h60 h

/-! ### C10 helper lemmas -/

theorem foldl_expiryStep_none_iff (ms : List OllamaModel) :
    ∀ acc, (ms.foldl expiryStep acc = none
      ↔ acc = none ∧ ms.filterMap (·.expires_at) = []) := by
  induction ms with
  | nil => intro acc; simp
  | cons m rest ih =>
    intro acc
    rw [List.foldl_cons, ih]
    cases hm : m.expires_at with
    | none => simp [expiryStep, hm]
    | some t =>
      cases acc with
      | none =>
        simp only [expiryStep, hm, List.filterMap_cons]
        constructor
        · rintro ⟨hif, -⟩
          cases hif
        · rintro ⟨-, hl⟩
          cases hl
      | some l =>
        simp only [expiryStep, hm, List.filterMap_cons]
        constructor
        · rintro ⟨hif, -⟩
          split at hif <;> cases hif
        · rintro ⟨hl, -⟩
          cases hl

theorem foldl_expiryStep_some_spec (ms : List OllamaModel) :
    ∀ acc t, ms.foldl expiryStep acc = some t →
      (acc = some t ∨ t ∈ ms.filterMap (·.expires_at))
      ∧ (∀ u ∈ ms.filterMap (·.expires_at), u ≤ t)
      ∧ (∀ l, acc = some l → l ≤ t) := by
  induction ms with
  | nil =>
    intro acc t h
    simp only [List.foldl_nil] at h
    refine ⟨Or.inl h, by simp, fun l hl => ?_⟩
    rw [h] at hl
    cases hl
    exact le_refl _
  | cons m rest ih =>
    intro acc t h
    rw [List.foldl_cons] at h
    obtain ⟨h1, h2, h3⟩ := ih (expiryStep acc m) t h
    cases hm : m.expires_at with
    | none =>
      have hstep : expiryStep acc m = acc := by simp [expiryStep, hm]
      rw [hstep] at h1 h3
      have hfm : (m :: rest).filterMap (fun x => x.expires_at)
          = rest.filterMap (fun x => x.expires_at) := by
        rw [List.filterMap_cons, hm]
      rw [hfm]
      exact ⟨h1, h2, h3⟩
    | some s =>
      cases acc with
      | none =>
        have hstep : expiryStep none m = some s := by simp [expiryStep, hm]
        rw [hstep] at h1 h3
        have hs_le : s ≤ t := h3 s rfl
        refine ⟨Or.inr ?_, ?_, fun l hl => by cases hl⟩
        · rw [List.filterMap_cons, hm]
          rcases h1 with h1 | h1
          · cases h1
            exact List.mem_cons_self _ _
          · exact List.mem_cons_of_mem _ h1
        · intro u hu
          rw [List.filterMap_cons, hm] at hu
          rcases List.mem_cons.mp hu with rfl | hu
          · exact hs_le
          · exact h2 u hu
      | some l0 =>
        have hstep : expiryStep (some l0) m = if s > l0 then some s else some l0 := by
          simp [expiryStep, hm]
        rw [hstep] at h1 h3
        by_cases hsl : s > l0
        · rw [if_pos hsl] at h1 h3
          have hs_le : s ≤ t := h3 s rfl
          refine ⟨Or.inr ?_, ?_, fun l hl => ?_⟩
          · rw [List.filterMap_cons, hm]
            rcases h1 with h1 | h1
            · cases h1
              exact List.mem_cons_self _ _
            · exact List.mem_cons_of_mem _ h1
          · intro u hu
            rw [List.filterMap_cons, hm] at hu
            rcases List.mem_cons.mp hu with rfl | hu
            · exact hs_le
            · exact h2 u hu
          · cases hl
            exact le_trans (le_of_lt hsl) hs_le
        · rw [if_neg hsl] at h1 h3
          have hl0_le : l0 ≤ t := h3 l0 rfl
          have hs_le : s ≤ t := le_trans (not_lt.mp hsl) hl0_le
          refine ⟨?_, ?_, fun l hl => ?_⟩
          · rcases h1 with h1 | h1
            · exact Or.inl h1
            · refine Or.inr ?_
              rw [List.filterMap_cons, hm]
              exact List.mem_cons_of_mem _ h1
          · intro u hu
            rw [List.filterMap_cons, hm] at hu
            rcases List.mem_cons.mp hu with rfl | hu
            · exact hs_le
            · exact h2 u hu
          · cases hl
            exact hl0_le

/-! ### C10 -/

/-- C10: `formatTimeRemaining` returns `'N/A'` exactly when the model list
is nullish, empty, or no model in it carries an expiry (provided the
external distance renderer `fmt` never itself returns `'N/A'`); otherwise
it renders `fmt` of the latest expiry among the models that carry one —
the rendered timestamp is one of the expiries present and no other expiry
exceeds it, so an earlier expiry never determines the displayed value. -/
theorem format_time_remaining_latest (fmt : Int → String)
    (oms : Option (List OllamaModel)) (hfmt : ∀ t, fmt t ≠ "N/A") :
    (formatTimeRemaining fmt oms = "N/A" ↔ expiries oms = [])
    ∧ (∀ ms t, oms = some ms → latestExpiry ms = some t →
        formatTimeRemaining fmt oms = fmt t
        ∧ t ∈ expiries oms ∧ ∀ u ∈ expiries oms, u ≤ t) := by
  constructor
  · rcases oms with _ | ms
    · exact iff_of_true rfl rfl
    · rcases hms : ms with _ | ⟨m, rest⟩
      · exact iff_of_true rfl rfl
      · rcases hle : latestExpiry (m :: rest) with _ | t
        · have hfm : formatTimeRemaining fmt (some (m :: rest)) = "N/A" := by
            simp [formatTimeRemaining, hle]
          have hexp : (m :: rest).filterMap (·.expires_at) = [] :=
            ((foldl_expiryStep_none_iff (m :: rest) none).mp hle).2
          exact iff_of_true hfm (by simpa [expiries] using hexp)
        · have hfm : formatTimeRemaining fmt (some (m :: rest)) = fmt t := by
            simp [formatTimeRemaining, hle]
          have hmem : t ∈ (m :: rest).filterMap (·.expires_at) := by
            rcases (foldl_expiryStep_some_spec (m :: rest) none t hle).1 with h | h
            · cases h
            · exact h
          refine iff_of_false ?_ ?_
          · rw [hfm]
            exact hfmt t
          · intro hnil
            have hunfold : expiries (some (m :: rest))
                = (m :: rest).filterMap (·.expires_at) := rfl
            rw [hunfold] at hnil
            rw [hnil] at hmem
            cases hmem
  · rintro ms t rfl hle
    have hspec := foldl_expiryStep_some_spec ms none t hle
    have hmem : t ∈ ms.filterMap (·.expires_at) := by
      rcases hspec.1 with h | h
      · cases h
      · exact h
    refine ⟨?_, hmem, hspec.2.1⟩
    rcases ms with _ | ⟨m, rest⟩
    · cases hle
    · simp [formatTimeRemaining, hle]

/-- The external distance renderer of the C10 witness. -/
def c10fmt : Int → String := fun t => "in " ++ toString t

/-- The model list of the C10 witness: one model without expiry, one
expiring at 100, one expiring at 50. -/
def c10models : List OllamaModel :=
  [{ name := "a", size_vram := none, expires_at := none },
   { name := "b", size_vram := some 0, expires_at := some 100 },
   { name := "c", size_vram := none, expires_at := some 50 }]

theorem c10fmt_ne (t : Int) : c10fmt t ≠ "N/A" := by
  intro h
  have hd := congrArg String.data h
  rw [c10fmt] at hd
  rw [String.data_append] at hd
  injection hd with h1 _
  exact absurd h1 (by decide)

/-- C10 witness: the latest of the expiries 100 and 50 determines the
display; a nullish list renders `'N/A'`. -/
theorem format_time_remaining_latest_witness :
    formatTimeRemaining c10fmt (some c10models) = c10fmt 100
    ∧ formatTimeRemaining c10fmt none = "N/A" :=
  ⟨((format_time_remaining_latest c10fmt (some c10models) c10fmt_ne).2 c10models 100
      rfl rfl).1,
   (format_time_remaining_latest c10fmt none c10fmt_ne).1.mpr rfl⟩

end LlmMonitor
